import Mathlib

/-!
Verification of the ts-validator schema library (`src/index.ts`) against its
natural-language specification.

The development shallowly embeds the library: JavaScript runtime values become
the inductive `JSValue`, the schema class hierarchy becomes the inductive
`Schema`, and the methods `_parse`, `_parseWithRefinements`, `runRefinements`,
`parse` and `safeParse` become the Lean functions `structParse`,
`parseWithRefinements`, `runRefinements`, `parse` and `safeParse`.
Thrown exceptions are modelled with `Except`: a thrown `ValidationError` is
`ParseErr.vErr issues`, any other thrown value is `ParseErr.other`.
-/

namespace Validator

/-- A path segment, `string | number` in the source (`ValidationIssue.path`). -/
inductive Key where
  | str (s : String)
  | idx (n : Nat)
deriving DecidableEq, Repr

abbrev Path := List Key

/-- Model of the JavaScript runtime values the library can receive.
`vNaN` is the not-a-number numeric value (`typeof NaN === 'number'` but
`isNaN(NaN)`), and `vDate none` is an invalid `Date` (one whose `getTime()`
is `NaN`); a valid `Date` carries its millisecond timestamp. Numbers other
than `NaN` are modelled as integers, which is enough for every claim. -/
inductive JSValue where
  | vUndefined
  | vNull
  | vStr (s : String)
  | vNum (n : Int)
  | vNaN
  | vBool (b : Bool)
  | vDate (time : Option Int)
  | vArr (elems : List JSValue)
  | vObj (fields : List (String × JSValue))
deriving Repr

/-- The JavaScript `typeof` operator on the modelled values. -/
def typeofStr : JSValue → String
  | .vUndefined => "undefined"
  | .vNull => "object"
  | .vStr _ => "string"
  | .vNum _ => "number"
  | .vNaN => "number"
  | .vBool _ => "boolean"
  | .vDate _ => "object"
  | .vArr _ => "object"
  | .vObj _ => "object"

/-- The JavaScript `isNaN` test on a value already known to be a number. -/
def isNaNJS : JSValue → Bool
  | .vNaN => true
  | _ => false

/-- The strict-equality test `data === null`. -/
def isNullJS : JSValue → Bool
  | .vNull => true
  | _ => false

/-- The strict-equality test `data === undefined`. -/
def isUndefinedJS : JSValue → Bool
  | .vUndefined => true
  | _ => false

/-- The `data instanceof Date` test. -/
def isDateJS : JSValue → Bool
  | .vDate _ => true
  | _ => false

/-- The `isNaN(data.getTime())` test on a `Date`. -/
def isInvalidDateJS : JSValue → Bool
  | .vDate none => true
  | _ => false

/-- Rendering of a path segment inside `path.join('.')`. -/
def keyToStr : Key → String
  | .str s => s
  | .idx n => toString n

/-- The `path.join('.')` rendering used in error messages. -/
def pathJoin (path : Path) : String :=
  String.intercalate "." (path.map keyToStr)

mutual

/-- Model of `JSON.stringify(value)` as interpolated into the error-message
template string. Exact JSON string escaping and the ISO rendering of a valid
`Date` are abstracted (a valid date is rendered from its timestamp); a
top-level `undefined` interpolates as the text `undefined`. No claim depends
on the byte-exact text of these messages. -/
def jsonStringify : JSValue → String
  | .vUndefined => "undefined"
  | .vNull => "null"
  | .vNaN => "null"
  | .vStr s => "\"" ++ s ++ "\""
  | .vNum n => toString n
  | .vBool b => if b then "true" else "false"
  | .vDate none => "null"
  | .vDate (some t) => "\"" ++ toString t ++ "\""
  | .vArr elems => "[" ++ stringifyElems elems ++ "]"
  | .vObj fields => "\x7b" ++ stringifyFields fields ++ "\x7d"

/-- Array elements of `JSON.stringify`, comma separated; an `undefined`
element serializes as `null`. -/
def stringifyElems : List JSValue → String
  | [] => ""
  | [x] => if isUndefinedJS x then "null" else jsonStringify x
  | x :: rest =>
      (if isUndefinedJS x then "null" else jsonStringify x) ++ "," ++ stringifyElems rest

/-- Object fields of `JSON.stringify`, comma separated; a field holding
`undefined` is dropped. -/
def stringifyFields : List (String × JSValue) → String
  | [] => ""
  | (key, value) :: rest =>
      if isUndefinedJS value then stringifyFields rest
      else
        let entry := "\"" ++ key ++ "\":" ++ jsonStringify value
        let restStr := stringifyFields rest
        if restStr = "" then entry else entry ++ "," ++ restStr

end

/-- `ValidationIssue` from `src/index.ts` lines 5-10. -/
structure ValidationIssue where
  path : Path
  message : String
  expected : String
  received : String
deriving DecidableEq, Repr

/-- Model of the two kinds of exceptions the pipeline can raise: a thrown
`ValidationError` (identified with its `issues` list, the only data the
library ever reads from it), or any other thrown value (modelled by a
string), e.g. one thrown by a user-supplied refinement predicate. -/
inductive ParseErr where
  | vErr (issues : List ValidationIssue)
  | other (e : String)
deriving DecidableEq, Repr

/-- The single issue built by the `makeError` helper (lines 27-36). -/
def makeIssue (path : Path) (expected received : String) (value : JSValue) : ValidationIssue :=
  ⟨path,
   "Invalid value at \"" ++ pathJoin path ++ "\": expected " ++ expected ++ ", received "
     ++ received ++ ". Value: " ++ jsonStringify value,
   expected, received⟩

/-- `makeError` (lines 27-36): a `ValidationError` holding one issue. -/
def makeError (path : Path) (expected received : String) (value : JSValue) : ParseErr :=
  .vErr [makeIssue path expected received value]

/-- A literal value, `string | number | boolean` (`VLiteral`'s type bound). -/
inductive Prim where
  | pstr (s : String)
  | pnum (n : Int)
  | pbool (b : Bool)
deriving DecidableEq, Repr

/-- Embedding of a literal value into the runtime values. -/
def Prim.toJS : Prim → JSValue
  | .pstr s => .vStr s
  | .pnum n => .vNum n
  | .pbool b => .vBool b

/-- Strict equality `data === val` where `val` is a primitive literal:
for primitives `===` is value equality of same-kind values. -/
def primEqJS : Prim → JSValue → Bool
  | .pstr s, .vStr s2 => s == s2
  | .pnum n, .vNum n2 => n == n2
  | .pbool b, .vBool b2 => b == b2
  | _, _ => false

/-- `JSON.stringify` of a literal value (used in `VLiteral`'s expected text). -/
def Prim.stringify : Prim → String
  | .pstr s => "\"" ++ s ++ "\""
  | .pnum n => toString n
  | .pbool b => if b then "true" else "false"

/-- One entry of a schema's refinement list (line 44): the user-supplied
predicate plus its message. The predicate returns `Except.error e` to model
a predicate that throws `e` (a non-`ValidationError` exception). -/
structure Refinement where
  check : JSValue → Except String Bool
  message : String

/-- The schema tree. Each constructor is one `VType` subclass of
`src/index.ts`: `VString`, `VNumber`, `VBoolean`, `VDate`, `VArray`,
`VLiteral`, `VUnion`, `VObject`, `VOptional`, `VNullable`. `refine inner c m`
is the schema obtained from `inner` by one `.refine(c, m)` call: the source
mutates the instance's refinement list and returns `this`, so a refined
schema is the same structural node with one more refinement appended
(see `refinements` below). -/
inductive Schema where
  | VString
  | VNumber
  | VBoolean
  | VDate
  | VArray (element : Schema)
  | VLiteral (val : Prim)
  | VEnum (values : List Prim)
  | VUnion (options : List Schema)
  | VObject (shape : List (String × Schema))
  | VOptional (inner : Schema)
  | VNullable (inner : Schema)
  | refine (inner : Schema) (check : JSValue → Except String Bool) (message : String)

/-- Modelled from the spec: `validator.enum` is used by the repository's
tests and README but the `VEnum` class and the `enum` factory are missing
from `src/index.ts`. Following spec §4.6, the enum holds the closed set of
permissible values and succeeds only if the input equals one of them; this
is that membership test. -/
def enumCheck (values : List Prim) (data : JSValue) : Bool :=
  values.any (fun p => primEqJS p data)

/-- Modelled from the spec: the `expected` descriptor for an enum failure
("expected describing the enum", spec §4.6). -/
def enumExpected (values : List Prim) : String :=
  "enum " ++ String.intercalate " | " (values.map Prim.stringify)

/-- The refinement list of a schema node (field `refinements`, line 44):
`refine` appends to the list in call order. Every other constructor starts
with an empty list. -/
def refinements : Schema → List Refinement
  | .refine inner check message => refinements inner ++ [⟨check, message⟩]
  | _ => []

/-- `runRefinements` (lines 107-120): run the refinements in order; the
first predicate returning `false` throws a single-issue `ValidationError`
with `expected: 'refinement to pass'` and `received: typeof value`; a
predicate that itself throws propagates its exception. -/
def runRefinements : List Refinement → JSValue → Path → Except ParseErr Unit
  | [], _, _ => .ok ()
  | r :: rest, value, path =>
    match r.check value with
    | .error e => .error (.other e)
    | .ok true => runRefinements rest value path
    | .ok false => .error (.vErr [⟨path, r.message, "refinement to pass", typeofStr value⟩])

/-- JavaScript property lookup `obj[key]` for the values that pass
`VObject`'s container check. On a plain object it is own-field lookup,
absent keys giving `undefined`; on an array, `length` and decimal index
keys resolve as in JS; other objects (e.g. `Date`) have no relevant own
data properties and give `undefined`. -/
def jsGet : JSValue → String → JSValue
  | .vObj fields, key => (fields.lookup key).getD .vUndefined
  | .vArr elems, key =>
      if key = "length" then .vNum elems.length
      else
        match key.toNat? with
        | some i => elems.getD i .vUndefined
        | none => .vUndefined
  | _, _ => .vUndefined

mutual

/-- The `_parse` methods of the `VType` subclasses (structural check only;
a schema's own refinements are NOT run here). Branch by branch:
`VString` lines 170-175, `VNumber` 188-193, `VBoolean` 204-209,
`VDate` 221-226, `VArray` 242-247 (elements via the element's `_parse`),
`VLiteral` 263-268, `VUnion` 287-302 (options via their `_parse`),
`VObject` 316-332 (fields via `_parseWithRefinements`),
`VOptional` 139-143 and `VNullable` 154-158 (inner via its `_parse`),
and `refine` dispatches to the underlying node's `_parse` (`refine`
returns `this`, so the refined schema's `_parse` is unchanged).
The `VEnum` branch is modelled from the spec (see `enumCheck`). -/
def structParse : Schema → Path → JSValue → Except ParseErr JSValue
  | .VString, path, data =>
      if typeofStr data != "string" then .error (makeError path "string" (typeofStr data) data)
      else .ok data
  | .VNumber, path, data =>
      if typeofStr data != "number" || isNaNJS data then
        .error (makeError path "number" (typeofStr data) data)
      else .ok data
  | .VBoolean, path, data =>
      if typeofStr data != "boolean" then .error (makeError path "boolean" (typeofStr data) data)
      else .ok data
  | .VDate, path, data =>
      if !isDateJS data || isInvalidDateJS data then
        .error (makeError path "Date" (typeofStr data) data)
      else .ok data
  | .VArray element, path, data =>
      match data with
      | .vArr elems => (mapElems element path 0 elems).map .vArr
      | _ => .error (makeError path "array" (typeofStr data) data)
  | .VLiteral val, path, data =>
      if !primEqJS val data then
        .error (makeError path ("literal " ++ val.stringify) (typeofStr data) data)
      else .ok val.toJS
  | .VEnum values, path, data =>
      if enumCheck values data then .ok data
      else .error (makeError path (enumExpected values) (typeofStr data) data)
  | .VUnion options, path, data => tryOptions options path data []
  | .VObject shape, path, data =>
      if typeofStr data != "object" || isNullJS data then
        .error (makeError path "object" (typeofStr data) data)
      else (parseShape shape path data).map .vObj
  | .VOptional inner, path, data =>
      if isUndefinedJS data then .ok .vUndefined
      else structParse inner path data
  | .VNullable inner, path, data =>
      if isNullJS data then .ok .vNull
      else structParse inner path data
  | .refine inner _ _, path, data => structParse inner path data
termination_by s _ _ => (sizeOf s, 0)

/-- `VArray._parse`'s `data.map((item, i) => element._parse([...path, i], item))`
with the JavaScript exception semantics of `map`: elements are visited left to
right and the first thrown error aborts the whole map. -/
def mapElems (element : Schema) (path : Path) (i : Nat) :
    List JSValue → Except ParseErr (List JSValue)
  | [] => .ok []
  | item :: rest => do
      let value ← structParse element (path ++ [.idx i]) item
      let restVals ← mapElems element path (i + 1) rest
      pure (value :: restVals)
termination_by xs => (sizeOf element, sizeOf xs)

/-- `VUnion._parse`'s loop (lines 287-302): try each option's `_parse` at the
same path; on a `ValidationError` push its issues and continue; rethrow any
other exception; if every option failed, throw the accumulated issues. -/
def tryOptions : List Schema → Path → JSValue → List ValidationIssue → Except ParseErr JSValue
  | [], _, _, errors => .error (.vErr errors)
  | option :: rest, path, data, errors =>
      match structParse option path data with
      | .ok value => .ok value
      | .error (.vErr issues) => tryOptions rest path data (errors ++ issues)
      | .error (.other e) => .error (.other e)
termination_by options _ _ _ => (sizeOf options, 0)

/-- `VObject._parse`'s field loop (lines 323-327): for each declared key in
shape order, look the key up in the input and validate it with the field
schema's `_parseWithRefinements`, extending the path with the key. -/
def parseShape : List (String × Schema) → Path → JSValue → Except ParseErr (List (String × JSValue))
  | [], _, _ => .ok []
  | (key, schema) :: rest, path, data => do
      let value ← parseWithRefinements schema (path ++ [.str key]) (jsGet data key)
      let restFields ← parseShape rest path data
      pure ((key, value) :: restFields)
termination_by shape _ _ => (sizeOf shape, 0)

/-- `VType._parseWithRefinements` (lines 59-63): structural parse, then the
node's own refinements on the produced value. -/
def parseWithRefinements (s : Schema) (path : Path) (data : JSValue) : Except ParseErr JSValue := do
  let value ← structParse s path data
  let _ ← runRefinements (refinements s) value path
  pure value
termination_by (sizeOf s, 1)

end

/-- `VType.parse` (lines 55-57): the full pipeline rooted at the empty path. -/
def parse (s : Schema) (data : JSValue) : Except ParseErr JSValue :=
  parseWithRefinements s [] data

/-- The `ParseResult` of `safeParse`: `{success: true, data}` or
`{success: false, error}` (the error carrying the `ValidationError`'s
issues). -/
inductive SafeResult where
  | success (data : JSValue)
  | failure (error : List ValidationIssue)
deriving Repr

/-- `VType.safeParse` (lines 68-79): run `_parse` then `runRefinements` at
the root path; a thrown `ValidationError` becomes the failure branch, any
other thrown value is re-thrown (the `Except.error` of the result). -/
def safeParse (s : Schema) (data : JSValue) : Except String SafeResult :=
  match (do
      let parsed ← structParse s [] data
      let _ ← runRefinements (refinements s) parsed []
      pure parsed : Except ParseErr JSValue) with
  | .ok d => .ok (.success d)
  | .error (.vErr issues) => .ok (.failure issues)
  | .error (.other e) => .error e

mutual

/-- `true` iff the schema tree contains no `VUnion` node. -/
def unionFree : Schema → Bool
  | .VArray element => unionFree element
  | .VUnion _ => false
  | .VObject shape => unionFreeShape shape
  | .VOptional inner => unionFree inner
  | .VNullable inner => unionFree inner
  | .refine inner _ _ => unionFree inner
  | _ => true

/-- `unionFree` over an object shape. -/
def unionFreeShape : List (String × Schema) → Bool
  | [] => true
  | (_, schema) :: rest => unionFree schema && unionFreeShape rest

end

mutual

/-- `true` iff every `VObject` shape in the tree has pairwise-distinct keys
(always the case for shapes written as TypeScript object literals, where a
duplicate key is a compile error; the list-based embedding has to state it). -/
def nodupShapes : Schema → Bool
  | .VArray element => nodupShapes element
  | .VUnion options => nodupShapesList options
  | .VObject shape => decide ((shape.map Prod.fst).Nodup) && nodupShapesShape shape
  | .VOptional inner => nodupShapes inner
  | .VNullable inner => nodupShapes inner
  | .refine inner _ _ => nodupShapes inner
  | _ => true

/-- `nodupShapes` over union options. -/
def nodupShapesList : List Schema → Bool
  | [] => true
  | schema :: rest => nodupShapes schema && nodupShapesList rest

/-- `nodupShapes` over an object shape. -/
def nodupShapesShape : List (String × Schema) → Bool
  | [] => true
  | (_, schema) :: rest => nodupShapes schema && nodupShapesShape rest

end

/-- A refinement predicate that always returns `false` (never throws);
used by concrete witnesses and counterexamples. -/
def alwaysFalseCheck : JSValue → Except String Bool := fun _ => .ok false

/-- `validator.number().refine(() => false, "A")`: a schema whose structural
check is `number` and whose single refinement always fails with message "A". -/
def refinedNumberA : Schema := .refine .VNumber alwaysFalseCheck "A"

/-- `validator.number().refine(() => false, "A").refine(() => false, "B")`. -/
def refinedNumberAB : Schema := .refine refinedNumberA alwaysFalseCheck "B"

/-- `union([object({k: number().optional()}), object({})])`: the schema on
which parsing is not idempotent (object pruning changes which union branch
matches on reparse). -/
def unionPruneSchema : Schema :=
  .VUnion [.VObject [("k", .VOptional .VNumber)], .VObject []]

/-- `object({a: number(), b: string().optional()})`: a union-free schema used
by the idempotence witness. -/
def userLikeSchema : Schema := .VObject [("a", .VNumber), ("b", .VOptional .VString)]

/-- C1 (counterexample): `optional`/`nullable` do not delegate to the inner
schema's refinements. With S = `number().refine(() => false, "A")`, the value
5 passes S's structural check but fails S's refinement, so S.parse(5) raises;
yet S.optional().parse(5) and S.nullable().parse(5) both succeed — contradicting
the claim that the wrapped parse succeeds exactly when S's full pipeline
succeeds. -/
theorem voptional_skips_inner_refinements :
    parse (.VOptional refinedNumberA) (.vNum 5) = .ok (.vNum 5)
    ∧ parse (.VNullable refinedNumberA) (.vNum 5) = .ok (.vNum 5)
    ∧ parse refinedNumberA (.vNum 5)
        = .error (.vErr [⟨[], "A", "refinement to pass", "number"⟩]) := by
  refine ⟨?_, ?_, ?_⟩ <;>
    simp [parse, parseWithRefinements, structParse, refinements, runRefinements,
      refinedNumberA, alwaysFalseCheck, typeofStr, isUndefinedJS, isNullJS, isNaNJS,
      bind, Except.bind, pure, Except.pure]

/-- C1 (amended): for every schema S and input v that is not the relevant
sentinel, S.optional().parse(v) (respectively S.nullable().parse(v)) equals
S's structural parse on v: the delegation covers the structural check only;
S's refinements are not run by the wrapper. -/
theorem voptional_vnullable_delegate_structural (S : Schema) (v : JSValue) :
    (isUndefinedJS v = false → parse (.VOptional S) v = structParse S [] v)
    ∧ (isNullJS v = false → parse (.VNullable S) v = structParse S [] v) := by
  constructor <;> intro h <;>
  · simp [parse, parseWithRefinements, structParse, refinements, runRefinements, h,
      bind, Except.bind, pure, Except.pure]
    cases structParse S [] v <;> simp [bind, Except.bind, pure, Except.pure]

/-- Witness for C1 (amended) at S = `number().refine(() => false, "A")`, v = 5. -/
theorem voptional_vnullable_delegate_structural_w :
    parse (.VOptional refinedNumberA) (.vNum 5) = structParse refinedNumberA [] (.vNum 5)
    ∧ parse (.VNullable refinedNumberA) (.vNum 5) = structParse refinedNumberA [] (.vNum 5) :=
  ⟨(voptional_vnullable_delegate_structural refinedNumberA (.vNum 5)).1 rfl,
   (voptional_vnullable_delegate_structural refinedNumberA (.vNum 5)).2 rfl⟩

/-- C2 (counterexample): array elements are validated with the element
schema's `_parse` only, so element refinements do not run: with
E = `number().refine(() => false, "A")`, `array(E).parse([5])` succeeds even
though 5 fails E's refinement (E.parse(5) raises) — contradicting the claim
that such an element causes the array parse to raise. -/
theorem varray_skips_element_refinements :
    parse (.VArray refinedNumberA) (.vArr [.vNum 5]) = .ok (.vArr [.vNum 5])
    ∧ parse refinedNumberA (.vNum 5)
        = .error (.vErr [⟨[], "A", "refinement to pass", "number"⟩]) := by
  constructor <;>
    simp [parse, parseWithRefinements, structParse, mapElems, refinements, runRefinements,
      refinedNumberA, alwaysFalseCheck, typeofStr, isNaNJS,
      bind, Except.bind, pure, Except.pure, Except.map]

/-- Every successful `mapElems` run has one output slot per input slot, the
slot holding the element's structural-parse result at its index. -/
theorem mapElems_ok_spec (element : Schema) :
    ∀ (xs ys : List JSValue) (path : Path) (i : Nat),
      mapElems element path i xs = .ok ys →
      ys.length = xs.length ∧
        ∀ (k : Nat) (h1 : k < xs.length) (h2 : k < ys.length),
          structParse element (path ++ [.idx (i + k)]) (xs.get ⟨k, h1⟩) = .ok (ys.get ⟨k, h2⟩) := by
  intro xs
  induction xs with
  | nil =>
    intro ys path i h
    simp [mapElems] at h
    subst h
    simp
  | cons x rest ih =>
    intro ys path i h
    simp [mapElems, bind, Except.bind, pure, Except.pure] at h
    cases hx : structParse element (path ++ [.idx i]) x with
    | error e => rw [hx] at h; simp at h
    | ok y =>
      rw [hx] at h
      cases hr : mapElems element path (i + 1) rest with
      | error e => rw [hr] at h; simp at h
      | ok ys2 =>
        rw [hr] at h
        simp at h
        subst h
        have ⟨hlen, hget⟩ := ih ys2 path (i + 1) hr
        constructor
        · simp [hlen]
        · intro k h1 h2
          cases k with
          | zero => simpa using hx
          | succ j =>
            have hidx : i + (j + 1) = (i + 1) + j := by omega
            rw [hidx]
            have h1r : j < rest.length := by simpa using h1
            have h2r : j < ys2.length := by simpa using h2
            simpa using hget j h1r h2r

/-- C2 (amended): on a successful array parse each element has been
validated with the element schema's structural parse (which includes
optional/nullable wrapping but not the element schema's refinements), and
every slot of the output holds the validated value, in the same length and
order as the input. -/
theorem varray_elements_structural (element : Schema) (xs : List JSValue) (w : JSValue)
    (h : parse (.VArray element) (.vArr xs) = .ok w) :
    ∃ ys : List JSValue, w = .vArr ys ∧ ys.length = xs.length ∧
      ∀ (i : Nat) (h1 : i < xs.length) (h2 : i < ys.length),
        structParse element [.idx i] (xs.get ⟨i, h1⟩) = .ok (ys.get ⟨i, h2⟩) := by
  simp [parse, parseWithRefinements, structParse, refinements, runRefinements,
    bind, Except.bind, pure, Except.pure, Except.map] at h
  cases hm : mapElems element [] 0 xs with
  | error e => rw [hm] at h; simp at h
  | ok ys =>
    rw [hm] at h
    simp at h
    refine ⟨ys, h.symm, ?_, ?_⟩
    · exact (mapElems_ok_spec element xs ys [] 0 hm).1
    · intro i h1 h2
      simpa using (mapElems_ok_spec element xs ys [] 0 hm).2 i h1 h2

/-- Witness for C2 (amended) at element schema `number()`, input [1, 2]. -/
theorem varray_elements_structural_w :
    ∃ ys : List JSValue, JSValue.vArr [.vNum 1, .vNum 2] = .vArr ys ∧ ys.length = 2 ∧
      ∀ (i : Nat) (h1 : i < ([JSValue.vNum 1, JSValue.vNum 2] : List JSValue).length)
        (h2 : i < ys.length),
        structParse .VNumber [.idx i] (([JSValue.vNum 1, JSValue.vNum 2] : List JSValue).get ⟨i, h1⟩)
          = .ok (ys.get ⟨i, h2⟩) :=
  varray_elements_structural .VNumber [.vNum 1, .vNum 2] (.vArr [.vNum 1, .vNum 2])
    (by simp [parse, parseWithRefinements, structParse, mapElems, refinements, runRefinements,
      typeofStr, isNaNJS, bind, Except.bind, pure, Except.pure, Except.map])

/-- C3: the construction surface includes an enum factory, and the enum
schema decides membership in the closed value set: with enum values {0, 1},
parsing 0 and 1 succeeds and parsing 2 fails with a ValidationError.
(The enum variant is modelled from the spec, `validator.enum` being absent
from `src/index.ts`; see `enumCheck`.) -/
theorem enum_membership_zero_one :
    parse (.VEnum [.pnum 0, .pnum 1]) (.vNum 0) = .ok (.vNum 0)
    ∧ parse (.VEnum [.pnum 0, .pnum 1]) (.vNum 1) = .ok (.vNum 1)
    ∧ parse (.VEnum [.pnum 0, .pnum 1]) (.vNum 2)
        = .error (makeError [] (enumExpected [.pnum 0, .pnum 1]) "number" (.vNum 2)) := by
  refine ⟨?_, ?_, ?_⟩ <;>
    simp [parse, parseWithRefinements, structParse, refinements, runRefinements,
      enumCheck, primEqJS, typeofStr, bind, Except.bind, pure, Except.pure]

/-- C7: `safeParse` runs the identical pipeline as `parse`; a raised
`ValidationError` becomes the `{success: false, error}` result carrying that
error's issues, a success becomes `{success: true, data}`, and any raised
value that is not a `ValidationError` propagates out of `safeParse`
unchanged. -/
theorem safeParse_spec (s : Schema) (v : JSValue) :
    safeParse s v
      = match parse s v with
        | .ok d => .ok (.success d)
        | .error (.vErr issues) => .ok (.failure issues)
        | .error (.other e) => .error e := by
  simp only [safeParse, parse, parseWithRefinements]

/-- C10: `VObject`'s container check accepts arrays (`typeof [] === 'object'`
and `[] !== null`), so an object schema applied to an array proceeds to
field-by-field lookup on the array instead of failing with expected
"object"; concretely `object({length: number()}).parse([1, 2])` succeeds and
returns `{length: 2}`. -/
theorem vobject_accepts_arrays :
    (∀ (shape : List (String × Schema)) (path : Path) (elems : List JSValue),
        structParse (.VObject shape) path (.vArr elems)
          = (parseShape shape path (.vArr elems)).map .vObj)
    ∧ parse (.VObject [("length", .VNumber)]) (.vArr [.vNum 1, .vNum 2])
        = .ok (.vObj [("length", .vNum 2)]) := by
  constructor
  · intro shape path elems
    simp [structParse, typeofStr, isNullJS]
  · simp [parse, parseWithRefinements, structParse, parseShape, refinements, runRefinements,
      jsGet, typeofStr, isNullJS, isNaNJS, bind, Except.bind, pure, Except.pure, Except.map]

/-- If every option fails its structural parse with a `ValidationError`,
the union's option loop throws the accumulated concatenation of their
issues, in option order. -/
theorem tryOptions_all_fail :
    ∀ (options : List Schema) (isss : List (List ValidationIssue)) (path : Path) (v : JSValue)
      (acc : List ValidationIssue),
      options.length = isss.length →
      (∀ (i : Nat) (h1 : i < options.length) (h2 : i < isss.length),
        structParse (options.get ⟨i, h1⟩) path v = .error (.vErr (isss.get ⟨i, h2⟩))) →
      tryOptions options path v acc = .error (.vErr (acc ++ isss.flatten)) := by
  intro options
  induction options with
  | nil =>
    intro isss path v acc hlen hfail
    have : isss = [] := by
      cases isss with
      | nil => rfl
      | cons a b => simp at hlen
    subst this
    simp [tryOptions]
  | cons o rest ih =>
    intro isss path v acc hlen hfail
    cases isss with
    | nil => simp at hlen
    | cons iss isss2 =>
      have h0 := hfail 0 (by simp) (by simp)
      simp at h0
      simp [tryOptions, h0]
      have := ih isss2 path v (acc ++ iss) (by simpa using hlen)
        (fun i h1 h2 => by simpa using hfail (i + 1) (by simpa using h1) (by simpa using h2))
      simpa using this

/-- C4: if every union member's structural parse fails on an input with a
`ValidationError`, the union raises a `ValidationError` whose issues list is
the concatenation of all members' issues in member order. -/
theorem vunion_aggregates_issues (options : List Schema) (v : JSValue)
    (isss : List (List ValidationIssue))
    (hlen : options.length = isss.length)
    (hfail : ∀ (i : Nat) (h1 : i < options.length) (h2 : i < isss.length),
      structParse (options.get ⟨i, h1⟩) [] v = .error (.vErr (isss.get ⟨i, h2⟩))) :
    parse (.VUnion options) v = .error (.vErr isss.flatten) := by
  have h := tryOptions_all_fail options isss [] v [] hlen hfail
  simp [parse, parseWithRefinements, structParse, refinements, runRefinements, h,
    bind, Except.bind, pure, Except.pure]

/-- Witness for C4: `union([literal("a"), literal("b")])` applied to "c"
fails with exactly two issues, one per branch in branch order, each with
expected describing its literal. -/
theorem vunion_aggregates_issues_w :
    parse (.VUnion [.VLiteral (.pstr "a"), .VLiteral (.pstr "b")]) (.vStr "c")
      = .error (.vErr
          [makeIssue [] ("literal " ++ Prim.stringify (.pstr "a")) "string" (.vStr "c"),
           makeIssue [] ("literal " ++ Prim.stringify (.pstr "b")) "string" (.vStr "c")]) := by
  have h := vunion_aggregates_issues [.VLiteral (.pstr "a"), .VLiteral (.pstr "b")] (.vStr "c")
      [[makeIssue [] ("literal " ++ Prim.stringify (.pstr "a")) "string" (.vStr "c")],
       [makeIssue [] ("literal " ++ Prim.stringify (.pstr "b")) "string" (.vStr "c")]]
      rfl ?hfail
  · simpa using h
  case hfail =>
    intro i h1 h2
    simp at h1
    interval_cases i <;> simp [structParse, primEqJS, typeofStr, makeError]

/-- If every element before position `pre.length` parses structurally and
the element there fails with `err`, the array element map fails with exactly
`err`, whatever the elements after it are. -/
theorem mapElems_prefix_error (element : Schema) (bad : JSValue) (err : ParseErr)
    (rest : List JSValue) :
    ∀ (pre : List JSValue) (path : Path) (i : Nat),
      (∀ (k : Nat) (h1 : k < pre.length),
        ∃ y, structParse element (path ++ [.idx (i + k)]) (pre.get ⟨k, h1⟩) = .ok y) →
      structParse element (path ++ [.idx (i + pre.length)]) bad = .error err →
      mapElems element path i (pre ++ bad :: rest) = .error err := by
  intro pre
  induction pre with
  | nil =>
    intro path i hpre hbad
    simp at hbad
    simp [mapElems, hbad, bind, Except.bind]
  | cons x pre2 ih =>
    intro path i hpre hbad
    have ⟨y, hy⟩ := hpre 0 (by simp)
    simp at hy
    have hrest := ih path (i + 1)
      (fun k h1 => by
        have ⟨y2, hy2⟩ := hpre (k + 1) (by simpa using h1)
        refine ⟨y2, ?_⟩
        have hidx : i + (k + 1) = (i + 1) + k := by omega
        rw [← hidx]
        simpa using hy2)
      (by
        have hidx : i + (x :: pre2).length = (i + 1) + pre2.length := by simp; omega
        rw [hidx] at hbad
        exact hbad)
    simp [mapElems, hy, hrest, bind, Except.bind]

/-- C5: array validation is fail-fast: if the elements before position j
pass the element schema's structural parse and the element at position j
fails with error `err`, the whole array parse raises exactly `err` — the
issues of the first failing element — regardless of the elements after j,
which are therefore never reported. -/
theorem varray_failfast (element : Schema) (pre : List JSValue) (bad : JSValue)
    (rest : List JSValue) (err : ParseErr)
    (hpre : ∀ (k : Nat) (h1 : k < pre.length),
      ∃ y, structParse element [.idx k] (pre.get ⟨k, h1⟩) = .ok y)
    (hbad : structParse element [.idx pre.length] bad = .error err) :
    parse (.VArray element) (.vArr (pre ++ bad :: rest)) = .error err := by
  have h := mapElems_prefix_error element bad err rest pre [] 0
    (fun k h1 => by simpa using hpre k h1) (by simpa using hbad)
  simp [parse, parseWithRefinements, structParse, refinements, runRefinements, h,
    bind, Except.bind, pure, Except.pure, Except.map]

/-- Witness for C5: `array(number()).parse([1, "x", 2])` raises the single
issue of the failing element at index 1; index 2 is never reported. -/
theorem varray_failfast_w :
    parse (.VArray .VNumber) (.vArr [.vNum 1, .vStr "x", .vNum 2])
      = .error (makeError [.idx 1] "number" "string" (.vStr "x")) := by
  have h := varray_failfast .VNumber [.vNum 1] (.vStr "x") [.vNum 2]
      (makeError [.idx 1] "number" "string" (.vStr "x")) ?hpre ?hbad
  · simpa using h
  case hpre =>
    intro k h1
    simp at h1
    subst h1
    exact ⟨.vNum 1, by simp [structParse, typeofStr, isNaNJS]⟩
  case hbad =>
    simp [structParse, typeofStr, isNaNJS]

/-- A successful object field loop produces exactly the declared keys, in
declaration order. -/
theorem parseShape_keys :
    ∀ (shape : List (String × Schema)) (path : Path) (v : JSValue)
      (fields : List (String × JSValue)),
      parseShape shape path v = .ok fields → fields.map Prod.fst = shape.map Prod.fst := by
  intro shape
  induction shape with
  | nil =>
    intro path v fields h
    simp [parseShape] at h
    subst h
    simp
  | cons kv rest ih =>
    intro path v fields h
    obtain ⟨key, schema⟩ := kv
    simp [parseShape, bind, Except.bind, pure, Except.pure] at h
    cases hv : parseWithRefinements schema (path ++ [.str key]) (jsGet v key) with
    | error e => rw [hv] at h; simp at h
    | ok value =>
      rw [hv] at h
      cases hr : parseShape rest path v with
      | error e => rw [hr] at h; simp at h
      | ok restFields =>
        rw [hr] at h
        simp at h
        subst h
        simpa using ih path v restFields hr

/-- Inversion for a successful `VObject` structural parse: the result is the
object built from the field loop. -/
theorem structParse_vobject_cases (shape : List (String × Schema)) (path : Path)
    (v u : JSValue) (hs : structParse (.VObject shape) path v = .ok u) :
    ∃ fields : List (String × JSValue), u = .vObj fields ∧ parseShape shape path v = .ok fields := by
  simp only [structParse] at hs
  split at hs
  · exact absurd hs (by simp)
  · cases hp : parseShape shape path v with
    | error e => rw [hp] at hs; simp [Except.map] at hs
    | ok fields =>
      rw [hp] at hs
      simp [Except.map] at hs
      exact ⟨fields, hs.symm, rfl⟩

/-- C6: a successful object parse returns a newly constructed mapping whose
keys are exactly the shape's declared keys (in declaration order); every
input key not declared in the shape is absent from the output. -/
theorem vobject_output_exact_keys (shape : List (String × Schema)) (v w : JSValue)
    (h : parse (.VObject shape) v = .ok w) :
    ∃ fields : List (String × JSValue),
      w = .vObj fields ∧ fields.map Prod.fst = shape.map Prod.fst := by
  simp only [parse, parseWithRefinements] at h
  cases hs : structParse (.VObject shape) [] v with
  | error e => rw [hs] at h; simp [bind, Except.bind] at h
  | ok u =>
    rw [hs] at h
    simp [bind, Except.bind, refinements, runRefinements, pure, Except.pure] at h
    obtain ⟨fields, hu, hp⟩ := structParse_vobject_cases shape [] v u hs
    refine ⟨fields, ?_, parseShape_keys shape [] v fields hp⟩
    rw [← h, hu]

/-- Witness for C6: `object({a: number, b: number}).parse({a:1, b:2, c:3})`
returns an object with exactly the keys a and b; key c is dropped. -/
theorem vobject_output_exact_keys_w :
    ∃ fields : List (String × JSValue),
      JSValue.vObj [("a", .vNum 1), ("b", .vNum 2)] = .vObj fields
      ∧ fields.map Prod.fst
          = ([("a", Schema.VNumber), ("b", Schema.VNumber)].map Prod.fst) :=
  vobject_output_exact_keys [("a", .VNumber), ("b", .VNumber)]
    (.vObj [("a", .vNum 1), ("b", .vNum 2), ("c", .vNum 3)])
    (.vObj [("a", .vNum 1), ("b", .vNum 2)])
    (by simp [parse, parseWithRefinements, structParse, parseShape, refinements,
      runRefinements, jsGet, List.lookup, typeofStr, isNullJS, isNaNJS,
      bind, Except.bind, pure, Except.pure, Except.map])

/-- Running a refinement list in which every refinement before position j
passes and the one at position j fails raises that refinement's single-issue
error; the refinements after j are irrelevant (never evaluated). -/
theorem runRefinements_first_failure (w : JSValue) (m : String)
    (c : JSValue → Except String Bool) :
    ∀ (pre rest : List Refinement) (path : Path),
      (∀ r ∈ pre, r.check w = .ok true) → c w = .ok false →
      runRefinements (pre ++ ⟨c, m⟩ :: rest) w path
        = .error (.vErr [⟨path, m, "refinement to pass", typeofStr w⟩]) := by
  intro pre
  induction pre with
  | nil =>
    intro rest path hpre hfail
    simp [runRefinements, hfail]
  | cons r pre2 ih =>
    intro rest path hpre hfail
    have hr : r.check w = .ok true := hpre r (by simp)
    simp [runRefinements, hr]
    exact ih rest path (fun r2 h2 => hpre r2 (by simp [h2])) hfail

/-- C8: refinements run only after the structural parse succeeds, in the
order they were added via `refine`; the first predicate to return false
raises immediately with its own message, so later refinements are not
evaluated. -/
theorem refinements_run_in_order (s : Schema) (v w : JSValue) (pre rest : List Refinement)
    (c : JSValue → Except String Bool) (m : String)
    (hrefs : refinements s = pre ++ ⟨c, m⟩ :: rest)
    (hpre : ∀ r ∈ pre, r.check w = .ok true)
    (hfail : c w = .ok false)
    (hstruct : structParse s [] v = .ok w) :
    parse s v = .error (.vErr [⟨[], m, "refinement to pass", typeofStr w⟩]) := by
  have h := runRefinements_first_failure w m c pre rest [] hpre hfail
  simp [parse, parseWithRefinements, hstruct, hrefs, h, bind, Except.bind, pure, Except.pure]

/-- Witness for C8: a number schema with two always-failing refinements "A"
then "B" raises with only message "A". -/
theorem refinements_run_in_order_w :
    parse refinedNumberAB (.vNum 5)
      = .error (.vErr [⟨[], "A", "refinement to pass", "number"⟩]) := by
  have h := refinements_run_in_order refinedNumberAB (.vNum 5) (.vNum 5) []
      [⟨alwaysFalseCheck, "B"⟩] alwaysFalseCheck "A"
      (by simp [refinedNumberAB, refinedNumberA, refinements])
      (by simp) rfl
      (by simp [refinedNumberAB, refinedNumberA, structParse, typeofStr, isNaNJS])
  simpa [typeofStr] using h

/-- C9 (counterexample): parsing is not idempotent. For
S = `union([object({k: number().optional()}), object({})])` and
v = `{k: "x"}`, the first branch rejects v (k is neither absent nor a
number), so S.parse(v) = `{}` via the second branch; but reparsing `{}`
succeeds on the FIRST branch (k now looks up as undefined), producing
`{k: undefined}`, which is not deeply equal to `{}` (different own keys). -/
theorem parse_not_idempotent :
    parse unionPruneSchema (.vObj [("k", .vStr "x")]) = .ok (.vObj [])
    ∧ parse unionPruneSchema (.vObj []) = .ok (.vObj [("k", .vUndefined)])
    ∧ JSValue.vObj [] ≠ JSValue.vObj [("k", JSValue.vUndefined)] := by
  refine ⟨?_, ?_, ?_⟩ <;>
    simp [unionPruneSchema, parse, parseWithRefinements, structParse, tryOptions, parseShape,
      refinements, runRefinements, jsGet, List.lookup, typeofStr, isNullJS, isUndefinedJS,
      isNaNJS, makeError, makeIssue, bind, Except.bind, pure, Except.pure, Except.map]

/-- Characterization of the `undefined` test. -/
theorem isUndefinedJS_iff (w : JSValue) : isUndefinedJS w = true ↔ w = .vUndefined := by
  cases w <;> simp [isUndefinedJS]

/-- Characterization of the `null` test. -/
theorem isNullJS_iff (w : JSValue) : isNullJS w = true ↔ w = .vNull := by
  cases w <;> simp [isNullJS]

/-- A literal value strictly equals its own embedding. -/
theorem primEqJS_toJS (val : Prim) : primEqJS val val.toJS = true := by
  cases val <;> simp [primEqJS, Prim.toJS]

/-- Whether a refinement list passes does not depend on the path (the path
only appears in the issue of a failing run). -/
theorem runRefinements_ok_path_irrel :
    ∀ (refs : List Refinement) (w : JSValue) (p1 p2 : Path),
      runRefinements refs w p1 = .ok () → runRefinements refs w p2 = .ok () := by
  intro refs
  induction refs with
  | nil => intro w p1 p2 _; simp [runRefinements]
  | cons r rest ih =>
    intro w p1 p2 h
    simp only [runRefinements] at h ⊢
    cases hc : r.check w with
    | error e => rw [hc] at h; simp at h
    | ok b =>
      rw [hc] at h
      cases b with
      | false => simp at h
      | true => simpa using ih w p1 p2 (by simpa using h)

/-- Inversion of a successful `_parseWithRefinements`. -/
theorem pwr_ok_inv (s : Schema) (p : Path) (data w : JSValue)
    (h : parseWithRefinements s p data = .ok w) :
    structParse s p data = .ok w ∧ runRefinements (refinements s) w p = .ok () := by
  simp only [parseWithRefinements] at h
  cases hs : structParse s p data with
  | error e => rw [hs] at h; simp [bind, Except.bind] at h
  | ok u =>
    rw [hs] at h
    simp only [bind, Except.bind] at h
    cases hr : runRefinements (refinements s) u p with
    | error e => rw [hr] at h; simp at h
    | ok unitVal =>
      rw [hr] at h
      simp [pure, Except.pure] at h
      subst h
      exact ⟨rfl, by cases unitVal; exact hr⟩

/-- Composition of a successful structural parse with passing refinements. -/
theorem pwr_ok_intro (s : Schema) (p : Path) (data w : JSValue)
    (h1 : structParse s p data = .ok w)
    (h2 : runRefinements (refinements s) w p = .ok ()) :
    parseWithRefinements s p data = .ok w := by
  simp [parseWithRefinements, h1, h2, bind, Except.bind, pure, Except.pure]

/-- Every field schema of a union-free shape is union-free. -/
theorem unionFreeShape_mem :
    ∀ (shape : List (String × Schema)), unionFreeShape shape = true →
      ∀ e ∈ shape, unionFree e.2 = true := by
  intro shape
  induction shape with
  | nil => intro _ e he; simp at he
  | cons kv rest ih =>
    obtain ⟨key, fschema⟩ := kv
    intro h e he
    simp only [unionFreeShape, Bool.and_eq_true] at h
    rcases List.mem_cons.mp he with he2 | he2
    · rw [he2]
      exact h.1
    · exact ih h.2 e he2

/-- Every field schema of a duplicate-free-shapes shape has
duplicate-free shapes. -/
theorem nodupShapesShape_mem :
    ∀ (shape : List (String × Schema)), nodupShapesShape shape = true →
      ∀ e ∈ shape, nodupShapes e.2 = true := by
  intro shape
  induction shape with
  | nil => intro _ e he; simp at he
  | cons kv rest ih =>
    obtain ⟨key, fschema⟩ := kv
    intro h e he
    simp only [nodupShapesShape, Bool.and_eq_true] at h
    rcases List.mem_cons.mp he with he2 | he2
    · rw [he2]
      exact h.1
    · exact ih h.2 e he2

/-- If the element schema's structural parse is idempotent then so is the
array element map (paths and start indices are irrelevant to success). -/
theorem mapElems_idem_of (element : Schema)
    (helem : ∀ (q1 q2 : Path) (data w2 : JSValue),
      structParse element q1 data = .ok w2 → structParse element q2 w2 = .ok w2) :
    ∀ (xs ys : List JSValue) (q1 q2 : Path) (i1 i2 : Nat),
      mapElems element q1 i1 xs = .ok ys → mapElems element q2 i2 ys = .ok ys := by
  intro xs
  induction xs with
  | nil =>
    intro ys q1 q2 i1 i2 h
    simp [mapElems] at h
    subst h
    simp [mapElems]
  | cons x rest ih =>
    intro ys q1 q2 i1 i2 h
    simp only [mapElems, bind, Except.bind] at h
    cases hx : structParse element (q1 ++ [.idx i1]) x with
    | error e => rw [hx] at h; simp at h
    | ok y =>
      rw [hx] at h
      cases hr : mapElems element q1 (i1 + 1) rest with
      | error e => rw [hr] at h; simp at h
      | ok ys2 =>
        rw [hr] at h
        simp [pure, Except.pure] at h
        subst h
        have hy := helem (q1 ++ [.idx i1]) (q2 ++ [.idx i2]) x y hx
        have hrest := ih ys2 q1 q2 (i1 + 1) (i2 + 1) hr
        simp [mapElems, bind, Except.bind, hy, hrest, pure, Except.pure]

/-- If every field schema's full field pipeline is idempotent, a successful
field loop reproduces its own output when rerun against any object whose
relevant properties are the loop's outputs (which is the case for the
pruned output object, by `jsGet`): shape keys must be duplicate-free. -/
theorem parseShape_idem_of :
    ∀ (shape : List (String × Schema)),
      (∀ e ∈ shape, ∀ (q1 q2 : Path) (data w2 : JSValue),
        parseWithRefinements e.2 q1 data = .ok w2 → parseWithRefinements e.2 q2 w2 = .ok w2) →
      ∀ (q1 q2 : Path) (src g : JSValue) (fields : List (String × JSValue)),
        parseShape shape q1 src = .ok fields →
        (shape.map Prod.fst).Nodup →
        (∀ k, k ∈ shape.map Prod.fst → jsGet g k = (fields.lookup k).getD .vUndefined) →
        parseShape shape q2 g = .ok fields := by
  intro shape
  induction shape with
  | nil =>
    intro _ q1 q2 src g fields h _ _
    simp [parseShape] at h
    subst h
    simp [parseShape]
  | cons kv rest ih =>
    obtain ⟨key, fschema⟩ := kv
    intro hfield q1 q2 src g fields h hnodup hg
    simp only [parseShape, bind, Except.bind] at h
    cases hv : parseWithRefinements fschema (q1 ++ [.str key]) (jsGet src key) with
    | error e => rw [hv] at h; simp at h
    | ok value =>
      rw [hv] at h
      cases hr : parseShape rest q1 src with
      | error e => rw [hr] at h; simp at h
      | ok restFields =>
        rw [hr] at h
        simp [pure, Except.pure] at h
        subst h
        have hgk : jsGet g key = value := by
          have hk := hg key (by simp)
          simpa [List.lookup] using hk
        have hv2 : parseWithRefinements fschema (q2 ++ [.str key]) (jsGet g key) = .ok value := by
          rw [hgk]
          exact hfield (key, fschema) (by simp) (q1 ++ [.str key]) (q2 ++ [.str key])
            (jsGet src key) value hv
        have hnodup2 : (key :: rest.map Prod.fst).Nodup := by simpa using hnodup
        have hkey_notin : key ∉ rest.map Prod.fst := (List.nodup_cons.mp hnodup2).1
        have hr2 : parseShape rest q2 g = .ok restFields := by
          refine ih (fun e he => hfield e (by simp [he])) q1 q2 src g restFields hr
            (List.nodup_cons.mp hnodup2).2 ?_
          intro k hk
          have hkne : k ≠ key := fun hEq => hkey_notin (hEq ▸ hk)
          have hbeq : (k == key) = false := by simp [hkne]
          have hk2 := hg k (by simp [hk])
          simpa [List.lookup, hbeq] using hk2
        simp [parseShape, bind, Except.bind, hv2, hr2, pure, Except.pure]

/-- A successful union-free structural parse (with duplicate-free object
shapes) reproduces its own output: reparsing the produced value at any path
succeeds with the same value. -/
theorem structParse_idem (s : Schema) (hu : unionFree s = true) (hn : nodupShapes s = true) :
    ∀ (p1 p2 : Path) (v w : JSValue),
      structParse s p1 v = .ok w → structParse s p2 w = .ok w := by
  cases s with
  | VString =>
    intro p1 p2 v w h
    simp only [structParse] at h ⊢
    split at h
    · simp at h
    · rename_i hcond
      simp only [Except.ok.injEq] at h
      subst h
      rw [if_neg hcond]
  | VNumber =>
    intro p1 p2 v w h
    simp only [structParse] at h ⊢
    split at h
    · simp at h
    · rename_i hcond
      simp only [Except.ok.injEq] at h
      subst h
      rw [if_neg hcond]
  | VBoolean =>
    intro p1 p2 v w h
    simp only [structParse] at h ⊢
    split at h
    · simp at h
    · rename_i hcond
      simp only [Except.ok.injEq] at h
      subst h
      rw [if_neg hcond]
  | VDate =>
    intro p1 p2 v w h
    simp only [structParse] at h ⊢
    split at h
    · simp at h
    · rename_i hcond
      simp only [Except.ok.injEq] at h
      subst h
      rw [if_neg hcond]
  | VLiteral val =>
    intro p1 p2 v w h
    simp only [structParse] at h ⊢
    split at h
    · simp at h
    · simp only [Except.ok.injEq] at h
      subst h
      rw [if_neg (by simp [primEqJS_toJS val])]
  | VEnum values =>
    intro p1 p2 v w h
    simp only [structParse] at h ⊢
    split at h
    · rename_i hcond
      simp only [Except.ok.injEq] at h
      subst h
      rw [if_pos hcond]
    · simp at h
  | VUnion options =>
    intro p1 p2 v w h
    simp [unionFree] at hu
  | VArray element =>
    intro p1 p2 v w h
    simp only [unionFree] at hu
    simp only [nodupShapes] at hn
    have helem : ∀ (q1 q2 : Path) (data w2 : JSValue),
        structParse element q1 data = .ok w2 → structParse element q2 w2 = .ok w2 :=
      fun q1 q2 data w2 hd => structParse_idem element hu hn q1 q2 data w2 hd
    cases v with
    | vArr xs =>
      simp only [structParse] at h ⊢
      cases hm : mapElems element p1 0 xs with
      | error e => rw [hm] at h; simp [Except.map] at h
      | ok ys =>
        rw [hm] at h
        simp [Except.map] at h
        subst h
        have hys := mapElems_idem_of element helem xs ys p1 p2 0 0 hm
        simp [structParse, hys, Except.map]
    | vUndefined => simp [structParse] at h
    | vNull => simp [structParse] at h
    | vStr s2 => simp [structParse] at h
    | vNum n => simp [structParse] at h
    | vNaN => simp [structParse] at h
    | vBool b => simp [structParse] at h
    | vDate t => simp [structParse] at h
    | vObj fs => simp [structParse] at h
  | VObject shape =>
    intro p1 p2 v w h
    simp only [unionFree] at hu
    have hn2 := hn
    simp only [nodupShapes, Bool.and_eq_true] at hn2
    obtain ⟨hndecide, hnrest⟩ := hn2
    obtain ⟨fields, hw, hp⟩ := structParse_vobject_cases shape p1 v w h
    subst hw
    have hfield : ∀ e ∈ shape, ∀ (q1 q2 : Path) (data w2 : JSValue),
        parseWithRefinements e.2 q1 data = .ok w2 → parseWithRefinements e.2 q2 w2 = .ok w2 := by
      intro e he q1 q2 data w2 hpw
      have hsz : sizeOf e.2 < sizeOf (Schema.VObject shape) := by
        have h1 : sizeOf e < sizeOf shape := List.sizeOf_lt_of_mem he
        have h2 : sizeOf e.2 < sizeOf e := by
          obtain ⟨a, b⟩ := e
          simp
        have h3 : sizeOf (Schema.VObject shape) = 1 + sizeOf shape := by simp
        omega
      obtain ⟨hs2, hr2⟩ := pwr_ok_inv e.2 q1 data w2 hpw
      exact pwr_ok_intro e.2 q2 w2 w2
        (structParse_idem e.2 (unionFreeShape_mem shape hu e he)
          (nodupShapesShape_mem shape hnrest e he) q1 q2 data w2 hs2)
        (runRefinements_ok_path_irrel (refinements e.2) w2 q1 q2 hr2)
    have hps := parseShape_idem_of shape hfield p1 p2 v (.vObj fields) fields hp
      (of_decide_eq_true hndecide) (fun k _ => rfl)
    simp [structParse, typeofStr, isNullJS, hps, Except.map]
  | VOptional inner =>
    intro p1 p2 v w h
    simp only [unionFree] at hu
    simp only [nodupShapes] at hn
    simp only [structParse] at h ⊢
    split at h
    · simp only [Except.ok.injEq] at h
      subst h
      simp [isUndefinedJS]
    · by_cases hw : isUndefinedJS w = true
      · have hweq : w = .vUndefined := (isUndefinedJS_iff w).mp hw
        subst hweq
        simp [isUndefinedJS]
      · rw [if_neg hw]
        exact structParse_idem inner hu hn p1 p2 v w h
  | VNullable inner =>
    intro p1 p2 v w h
    simp only [unionFree] at hu
    simp only [nodupShapes] at hn
    simp only [structParse] at h ⊢
    split at h
    · simp only [Except.ok.injEq] at h
      subst h
      simp [isNullJS]
    · by_cases hw : isNullJS w = true
      · have hweq : w = .vNull := (isNullJS_iff w).mp hw
        subst hweq
        simp [isNullJS]
      · rw [if_neg hw]
        exact structParse_idem inner hu hn p1 p2 v w h
  | refine inner c m =>
    intro p1 p2 v w h
    simp only [unionFree] at hu
    simp only [nodupShapes] at hn
    simp only [structParse] at h ⊢
    exact structParse_idem inner hu hn p1 p2 v w h
termination_by sizeOf s

/-- Idempotence of the full field pipeline for union-free schemas. -/
theorem parseWithRefinements_idem (s : Schema) (hu : unionFree s = true)
    (hn : nodupShapes s = true) (p1 p2 : Path) (v w : JSValue)
    (h : parseWithRefinements s p1 v = .ok w) :
    parseWithRefinements s p2 w = .ok w := by
  obtain ⟨hs, hr⟩ := pwr_ok_inv s p1 v w h
  exact pwr_ok_intro s p2 w w (structParse_idem s hu hn p1 p2 v w hs)
    (runRefinements_ok_path_irrel (refinements s) w p1 p2 hr)

/-- C9 (amended): parsing is idempotent for union-free schemas: for every
schema S containing no union node (and whose object shapes have
duplicate-free keys, as TypeScript shape literals guarantee) and every input
v on which S.parse succeeds, S.parse(S.parse(v)) succeeds and returns a
value deeply equal to S.parse(v). (With a union node the branch matched on
reparse can differ and the claim fails, see the counterexample.) -/
theorem parse_idempotent_unionFree (s : Schema) (v w : JSValue)
    (hu : unionFree s = true) (hn : nodupShapes s = true)
    (h : parse s v = .ok w) : parse s w = .ok w :=
  parseWithRefinements_idem s hu hn [] [] v w h

/-- Witness for C9 (amended): the object schema
`object({a: number(), b: string().optional()})` maps `{a:1, c:true}` to
`{a:1, b:undefined}` and maps that output to itself. -/
theorem parse_idempotent_unionFree_w :
    parse userLikeSchema (.vObj [("a", .vNum 1), ("b", .vUndefined)])
      = .ok (.vObj [("a", .vNum 1), ("b", .vUndefined)]) :=
  parse_idempotent_unionFree userLikeSchema
    (.vObj [("a", .vNum 1), ("c", .vBool true)])
    (.vObj [("a", .vNum 1), ("b", .vUndefined)])
    (by simp [userLikeSchema, unionFree, unionFreeShape])
    (by simp [userLikeSchema, nodupShapes, nodupShapesShape])
    (by simp [userLikeSchema, parse, parseWithRefinements, structParse, parseShape,
      refinements, runRefinements, jsGet, List.lookup, typeofStr, isNullJS, isUndefinedJS,
      isNaNJS, bind, Except.bind, pure, Except.pure, Except.map])

end Validator
